import Mathlib

/-!
Verification development for the flashcard API service.

The embedding models:
* the `Flashcard` document (src/models/flashcardModel.ts): schema fields and
  the `updateStats` instance method;
* `FlashcardService.deDuplicateFlashcards` (src/services/flashcardService.ts):
  the Mongo aggregation `$group` by `spanishWord` with `$push $$ROOT` and
  `$match count > 1`, the per-group marking loop, the all-empty `pop()`
  tie-break, the sequential `findByIdAndDelete` loop, and the summary object;
* the creation paths: `createFlashcard` (category defaulted by the schema /
  Joi validator to "General" when absent) and `createFlashcardsFromCSV`
  (src/CSVUpload.ts, which passes `category: 'unassigned'` explicitly).

The store is modelled as a list of documents in scan order.  Document ids are
assigned by the store and are unique, which appears as a `Nodup` hypothesis on
the list of ids.  `Flashcard.findByIdAndDelete` deletes the (at most one)
document matching the id.  Mongoose `Number` fields are modelled as `ℚ`
(for `percentageCorrect`) and `ℕ` (for the counter `timesSeen`); JavaScript
`toFixed(2)` is modelled as exact rounding to two decimal places over `ℚ`.
-/

namespace FlashcardApi

/-- A flashcard document as stored (fields of `FlashcardSchema`;
`dateLastSeen` is a presentation timestamp and is not modelled). -/
structure Flashcard where
  id : Nat
  spanishWord : String
  englishWord : String
  category : String
  timesSeen : Nat
  percentageCorrect : ℚ
  favorite : Bool
deriving DecidableEq, Repr

/-- The classification in the marking loop of `deDuplicateFlashcards`:
`record.percentageCorrect === 0 && record.timesSeen === 0`. -/
def isEmptyRecord (c : Flashcard) : Bool :=
  c.percentageCorrect == 0 && c.timesSeen == 0

/-- The members pushed for key `w` by the `$group` stage: all documents whose
`spanishWord` equals `w`, in store scan order (`$push: '$$ROOT'`). -/
def membersOf (cards : List Flashcard) (w : String) : List Flashcard :=
  cards.filter (fun c => c.spanishWord == w)

/-- The keys of the groups kept by `$match: count > 1`: the distinct
`spanishWord` values occurring in more than one document.  String comparison
is the exact `$group` key equality (case-sensitive, no normalization). -/
def duplicateWords (cards : List Flashcard) : List String :=
  ((cards.map Flashcard.spanishWord).dedup).filter
    (fun w => 1 < (membersOf cards w).length)

/-- The `recordsToDelete` list built for one duplicate group: the ids of the
empty members are pushed in member order; if every member was marked, the
final `pop()` drops the last pushed id so one record survives. -/
def recordsToDelete (g : List Flashcard) : List Nat :=
  let marked := (g.filter isEmptyRecord).map Flashcard.id
  if marked.length = g.length then marked.dropLast else marked

/-- Model of `Flashcard.findByIdAndDelete`: removes the (at most one, first in scan
order) document whose id matches; a no-op when no document matches. -/
def deleteById (cards : List Flashcard) (rid : Nat) : List Flashcard :=
  cards.eraseP (fun c => c.id == rid)

/-- All ids deleted in one pass, in deletion order: the concatenation of the
groups' `recordsToDelete` lists. -/
def allDeletedIds (cards : List Flashcard) : List Nat :=
  (duplicateWords cards).flatMap (fun w => recordsToDelete (membersOf cards w))

/-- The summary object returned by `deDuplicateFlashcards`, as surfaced by the
maintenance endpoint (`deletedCount` ↦ `recordsDeleted`, `duplicateGroups` ↦
`duplicateGroupsFound`, `remainingCount` ↦ `remainingRecords`). -/
structure DedupResult where
  deletedCount : Nat
  duplicateGroups : Nat
  remainingCount : Nat
deriving DecidableEq, Repr

/-- Model of `FlashcardService.deDuplicateFlashcards`: aggregate the duplicate groups,
mark and delete, then count the remaining documents.  Returns the summary
together with the final store state (`totalDeleted` increments once per
delete call, i.e. once per marked id). -/
def deDuplicateFlashcards (cards : List Flashcard) : DedupResult × List Flashcard :=
  let ids := allDeletedIds cards
  let final := ids.foldl deleteById cards
  ({ deletedCount := ids.length
     duplicateGroups := (duplicateWords cards).length
     remainingCount := final.length }, final)

/-- JavaScript `Number.prototype.toFixed(2)` followed by the mongoose cast
back to a number: rounding to the nearest multiple of `1/100`, ties away from
zero (all values reaching it here are non-negative, so: half up), modelled
exactly over `ℚ`. -/
def toFixed2 (x : ℚ) : ℚ := (round (100 * x) : ℤ) / 100

/-- Model of `FlashcardSchema.methods.updateStats` (src/models/flashcardModel.ts):
recovers the number of correct answers, increments `timesSeen`, and stores
the new ratio rounded by `toFixed(2)`.  The `dateLastSeen = new Date()`
assignment is a wall-clock timestamp and is not modelled. -/
def updateStats (c : Flashcard) (isCorrect : Bool) : Flashcard :=
  let numberCorrect : ℚ := c.percentageCorrect * c.timesSeen
  let newTimesSeen : Nat := c.timesSeen + 1
  if isCorrect then
    { c with timesSeen := newTimesSeen
             percentageCorrect := toFixed2 ((numberCorrect + 1) / newTimesSeen) }
  else
    { c with timesSeen := newTimesSeen
             percentageCorrect := toFixed2 (numberCorrect / newTimesSeen) }

/-- Model of `FlashcardService.createFlashcard`: the document built by
`new Flashcard({spanishWord, englishWord, category})` and saved.  A DTO with
no category leaves the field `undefined`, so the schema default `'General'`
applies (the Joi validator on the add route carries the same default); the
remaining fields take the schema defaults and the store assigns the id. -/
def createFlashcard (rid : Nat) (spanishWord englishWord : String)
    (category : Option String) : Flashcard :=
  { id := rid, spanishWord := spanishWord, englishWord := englishWord
    category := category.getD "General", timesSeen := 0
    percentageCorrect := 0, favorite := false }

/-- A flashcard created from a CSV row by `createFlashcardsFromCSV`
(src/CSVUpload.ts): both words trimmed and `category: 'unassigned'` passed
explicitly; the other fields take the schema defaults. -/
def createFlashcardFromCSVRow (rid : Nat) (spanishword englishword : String) :
    Flashcard :=
  { id := rid, spanishWord := spanishword.trim, englishWord := englishword.trim
    category := "unassigned", timesSeen := 0
    percentageCorrect := 0, favorite := false }

/-- Spec-side count, following the spec's words for the duplicate-detection
key: "the number of distinct spanishWord values shared by more than one
record", with exact case-sensitive string comparison.  Compared against the
engine's `duplicateGroups` in the C6 theorem. -/
def distinctDuplicatedWordCount (cards : List Flashcard) : Nat :=
  ((cards.map Flashcard.spanishWord).toFinset.filter
    (fun w => 1 < (cards.map Flashcard.spanishWord).count w)).card

/-- The delete loop with failure injection: `dfail` says which
`findByIdAndDelete` calls reject.  A rejection aborts the loop and the
carried state is the store at that moment (earlier deletes stand). -/
def runDeletesE (dfail : Nat → Bool) :
    List Flashcard → List Nat → Except (List Flashcard) (List Flashcard)
  | cards, [] => .ok cards
  | cards, x :: ids =>
      if dfail x then .error cards
      else runDeletesE dfail (deleteById cards x) ids

/-- Model of `deDuplicateFlashcards` with the store's failure modes made explicit:
`qfail` is a rejection of the initial aggregate (nothing has been deleted
yet), `dfail` injects per-delete rejections.  An `Except.error` carries the
store state when the async function rejects; no summary accompanies it. -/
def deDuplicateFlashcardsE (qfail : Bool) (dfail : Nat → Bool)
    (cards : List Flashcard) :
    Except (List Flashcard) (DedupResult × List Flashcard) :=
  if qfail then .error cards
  else
    match runDeletesE dfail cards (allDeletedIds cards) with
    | .error st => .error st
    | .ok final =>
        .ok ({ deletedCount := (allDeletedIds cards).length
               duplicateGroups := (duplicateWords cards).length
               remainingCount := final.length }, final)

/-! ### Concrete store states (the spec's test scenarios) -/

/-- Spec scenario A: two `"Hola"` records, one meaningful, one empty. -/
def scenarioA : List Flashcard :=
  [⟨1, "Hola", "Hello", "General", 10, mkRat 4 5, false⟩,
   ⟨2, "Hola", "Hello", "General", 0, 0, false⟩]

/-- Spec scenario B: three all-empty `"Adios"` records. -/
def scenarioB : List Flashcard :=
  [⟨1, "Adios", "Goodbye", "General", 0, 0, false⟩,
   ⟨2, "Adios", "Goodbye", "General", 0, 0, false⟩,
   ⟨3, "Adios", "Goodbye", "General", 0, 0, false⟩]

/-- Spec scenario C: two records whose `spanishWord` differ only in case. -/
def scenarioC : List Flashcard :=
  [⟨1, "hola", "Hello", "General", 0, 0, false⟩,
   ⟨2, "Hola", "Hello", "General", 0, 0, false⟩]

/-- Two meaningful records sharing one `spanishWord`: a duplicate group the
engine never shrinks. -/
def twoMeaningful : List Flashcard :=
  [⟨1, "Hola", "Hello", "General", 10, mkRat 4 5, false⟩,
   ⟨2, "Hola", "Hello", "General", 5, mkRat 1 2, false⟩]

/-- The card whose stats-update history the C10 theorem traces (created with
the schema defaults `timesSeen = 0`, `percentageCorrect = 0`). -/
def c10Card : Flashcard := createFlashcard 1 "hola" "hello" none

/-! ### Basic facts about groups and marked ids -/

theorem mem_membersOf {cards : List Flashcard} {w : String} {c : Flashcard} :
    c ∈ membersOf cards w ↔ c ∈ cards ∧ c.spanishWord = w := by
  simp [membersOf, List.mem_filter]

theorem id_injOn {cards : List Flashcard} {a b : Flashcard}
    (h : (cards.map Flashcard.id).Nodup) (ha : a ∈ cards) (hb : b ∈ cards)
    (hab : a.id = b.id) : a = b :=
  List.inj_on_of_nodup_map h ha hb hab

theorem membersOf_map_id_sublist (cards : List Flashcard) (w : String) :
    ((membersOf cards w).map Flashcard.id).Sublist (cards.map Flashcard.id) :=
  List.Sublist.map _ (List.filter_sublist cards)

theorem nodup_membersOf_ids {cards : List Flashcard} {w : String}
    (h : (cards.map Flashcard.id).Nodup) :
    ((membersOf cards w).map Flashcard.id).Nodup :=
  (membersOf_map_id_sublist cards w).nodup h

theorem recordsToDelete_sublist (g : List Flashcard) :
    (recordsToDelete g).Sublist (g.map Flashcard.id) := by
  unfold recordsToDelete
  by_cases hlen : ((g.filter isEmptyRecord).map Flashcard.id).length = g.length
  · simp only [hlen, if_pos rfl]
    exact ((g.filter isEmptyRecord).map Flashcard.id).dropLast_sublist.trans
      (List.Sublist.map _ (List.filter_sublist g))
  · simp only [if_neg hlen]
    exact List.Sublist.map _ (List.filter_sublist g)

theorem mem_recordsToDelete {g : List Flashcard} {x : Nat}
    (hx : x ∈ recordsToDelete g) :
    ∃ c ∈ g, c.id = x ∧ isEmptyRecord c = true := by
  have hx' : x ∈ (g.filter isEmptyRecord).map Flashcard.id := by
    unfold recordsToDelete at hx
    by_cases hlen : ((g.filter isEmptyRecord).map Flashcard.id).length = g.length
    · simp only [hlen, if_pos rfl] at hx
      exact ((g.filter isEmptyRecord).map Flashcard.id).dropLast_sublist.mem hx
    · simpa only [if_neg hlen] using hx
  rcases List.mem_map.mp hx' with ⟨c, hc, hcx⟩
  rcases List.mem_filter.mp hc with ⟨hcg, hce⟩
  exact ⟨c, hcg, hcx, hce⟩

theorem mem_duplicateWords {cards : List Flashcard} {w : String} :
    w ∈ duplicateWords cards ↔
      w ∈ cards.map Flashcard.spanishWord ∧ 1 < (membersOf cards w).length := by
  simp [duplicateWords, List.mem_filter, List.mem_dedup]

theorem recordsToDelete_subset_allDeletedIds {cards : List Flashcard} {w : String}
    (hw : w ∈ duplicateWords cards) {x : Nat}
    (hx : x ∈ recordsToDelete (membersOf cards w)) : x ∈ allDeletedIds cards := by
  exact List.mem_flatMap.mpr ⟨w, hw, hx⟩

/-- Workhorse: every deleted id is the id of an empty record of the store whose
`spanishWord` is duplicated, and lies in its own group's delete list. -/
theorem exists_of_mem_allDeletedIds {cards : List Flashcard} {x : Nat}
    (hx : x ∈ allDeletedIds cards) :
    ∃ c ∈ cards, c.id = x ∧ isEmptyRecord c = true ∧
      x ∈ recordsToDelete (membersOf cards c.spanishWord) ∧
      1 < (membersOf cards c.spanishWord).length := by
  rcases List.mem_flatMap.mp hx with ⟨w, hw, hxw⟩
  rcases mem_recordsToDelete hxw with ⟨c, hcg, hcx, hce⟩
  rcases mem_membersOf.mp hcg with ⟨hcc, hcw⟩
  refine ⟨c, hcc, hcx, hce, ?_, ?_⟩
  · rw [hcw]; exact hcx ▸ hxw
  · rw [hcw]; exact (mem_duplicateWords.mp hw).2

/-- If a record's id is not in its own group's delete list, it is never
deleted (ids are unique, and other groups carry other words). -/
theorem not_mem_allDeletedIds {cards : List Flashcard} {c : Flashcard}
    (h : (cards.map Flashcard.id).Nodup) (hc : c ∈ cards)
    (hng : c.id ∉ recordsToDelete (membersOf cards c.spanishWord)) :
    c.id ∉ allDeletedIds cards := by
  intro hmem
  rcases exists_of_mem_allDeletedIds hmem with ⟨c', hc', hid, _, hown, _⟩
  have : c' = c := id_injOn h hc' hc hid
  subst this
  exact hng (hid ▸ hown)

theorem meaningful_not_deleted {cards : List Flashcard} {c : Flashcard}
    (h : (cards.map Flashcard.id).Nodup) (hc : c ∈ cards)
    (hm : isEmptyRecord c = false) : c.id ∉ allDeletedIds cards := by
  intro hmem
  rcases exists_of_mem_allDeletedIds hmem with ⟨c', hc', hid, he', _, _⟩
  have : c' = c := id_injOn h hc' hc hid
  subst this
  rw [hm] at he'
  exact Bool.false_ne_true he'

/-! ### The delete loop as a filter -/

theorem deleteById_eq_filter {cards : List Flashcard} {x : Nat}
    (h : (cards.map Flashcard.id).Nodup) :
    deleteById cards x = cards.filter (fun c => !(c.id == x)) := by
  induction cards with
  | nil => rfl
  | cons c cs ih =>
    rcases List.nodup_cons.mp h with ⟨hhead, htail⟩
    by_cases hcx : c.id = x
    · have h1 : deleteById (c :: cs) x = cs := by
        simp [deleteById, List.eraseP_cons, hcx]
      have h2 : cs.filter (fun a => !(a.id == x)) = cs := by
        refine List.filter_eq_self.mpr (fun a ha => ?_)
        have : a.id ≠ x := by
          intro hax
          exact hhead (hcx ▸ hax ▸ List.mem_map.mpr ⟨a, ha, rfl⟩)
        simp [this]
      simp [h1, h2, hcx]
    · have h1 : deleteById (c :: cs) x = c :: deleteById cs x := by
        simp [deleteById, List.eraseP_cons, hcx]
      rw [h1, ih htail]
      simp [List.filter_cons, hcx]

theorem foldl_deleteById_eq_filter {cards : List Flashcard} (ids : List Nat)
    (h : (cards.map Flashcard.id).Nodup) :
    ids.foldl deleteById cards = cards.filter (fun c => decide (c.id ∉ ids)) := by
  induction ids generalizing cards with
  | nil => simp
  | cons x ids ih =>
    have hstep : deleteById cards x = cards.filter (fun c => !(c.id == x)) :=
      deleteById_eq_filter h
    have hnodup' : ((cards.filter (fun c => !(c.id == x))).map Flashcard.id).Nodup :=
      (List.Sublist.map _ (List.filter_sublist cards)).nodup h
    calc (x :: ids).foldl deleteById cards
        = ids.foldl deleteById (deleteById cards x) := rfl
      _ = (cards.filter (fun c => !(c.id == x))).filter (fun c => decide (c.id ∉ ids)) := by
          rw [hstep] at *; exact ih hnodup'
      _ = cards.filter (fun c => decide (c.id ∉ x :: ids)) := by
          rw [List.filter_filter]
          refine List.filter_congr (fun c _ => ?_)
          by_cases h1 : c.id = x <;> by_cases h2 : c.id ∈ ids <;>
            simp [h1, h2, List.mem_cons]

theorem final_eq_filter {cards : List Flashcard}
    (h : (cards.map Flashcard.id).Nodup) :
    (deDuplicateFlashcards cards).2
      = cards.filter (fun c => decide (c.id ∉ allDeletedIds cards)) :=
  foldl_deleteById_eq_filter (allDeletedIds cards) h

theorem mem_final_iff {cards : List Flashcard} {c : Flashcard}
    (h : (cards.map Flashcard.id).Nodup) :
    c ∈ (deDuplicateFlashcards cards).2 ↔
      c ∈ cards ∧ c.id ∉ allDeletedIds cards := by
  rw [final_eq_filter h]
  simp [List.mem_filter]

/-! ### Survivors -/

theorem meaningful_mem_final {cards : List Flashcard} {c : Flashcard}
    (h : (cards.map Flashcard.id).Nodup) (hc : c ∈ cards)
    (hm : isEmptyRecord c = false) : c ∈ (deDuplicateFlashcards cards).2 :=
  (mem_final_iff h).mpr ⟨hc, meaningful_not_deleted h hc hm⟩

theorem deleted_isEmptyRecord {cards : List Flashcard} {c : Flashcard}
    (h : (cards.map Flashcard.id).Nodup) (hc : c ∈ cards)
    (hnf : c ∉ (deDuplicateFlashcards cards).2) : isEmptyRecord c = true := by
  by_contra hne
  exact hnf (meaningful_mem_final h hc (Bool.not_eq_true _ ▸ hne))

theorem recordsToDelete_all_empty {g : List Flashcard}
    (hall : ∀ c ∈ g, isEmptyRecord c = true) :
    recordsToDelete g = (g.map Flashcard.id).dropLast := by
  unfold recordsToDelete
  rw [List.filter_eq_self.mpr hall]
  simp

theorem getLast_id_not_mem_dropLast {g : List Flashcard}
    (hg : (g.map Flashcard.id).Nodup) (hne : g ≠ []) :
    (g.getLast hne).id ∉ (g.map Flashcard.id).dropLast := by
  have hmne : g.map Flashcard.id ≠ [] := by
    simpa using hne
  have hdecomp := List.dropLast_append_getLast hmne
  have hlast : (g.map Flashcard.id).getLast hmne = (g.getLast hne).id := by
    rw [List.getLast_map]
  rw [hlast] at hdecomp
  have hnodup : ((g.map Flashcard.id).dropLast ++ [(g.getLast hne).id]).Nodup := by
    rw [hdecomp]; exact hg
  rcases List.nodup_append.mp hnodup with ⟨_, _, hdisj⟩
  intro hmem
  exact hdisj hmem (by simp)

/-- In an all-empty duplicate group, a member whose id escapes the group's
delete list can only be the group's last member. -/
theorem eq_getLast_of_not_marked {cards : List Flashcard} {w : String}
    (h : (cards.map Flashcard.id).Nodup)
    (hall : ∀ c ∈ membersOf cards w, isEmptyRecord c = true)
    (hne : membersOf cards w ≠ []) {c : Flashcard}
    (hc : c ∈ membersOf cards w)
    (hnd : c.id ∉ recordsToDelete (membersOf cards w)) :
    c = (membersOf cards w).getLast hne := by
  rw [recordsToDelete_all_empty hall] at hnd
  have hidmem : c.id ∈ (membersOf cards w).map Flashcard.id :=
    List.mem_map.mpr ⟨c, hc, rfl⟩
  have hmne : (membersOf cards w).map Flashcard.id ≠ [] := by simpa using hne
  rw [← List.dropLast_append_getLast hmne, List.mem_append] at hidmem
  rcases hidmem with hdrop | hsing
  · exact absurd hdrop hnd
  · have hid : c.id = ((membersOf cards w).getLast hne).id := by
      have : (membersOf cards w).map Flashcard.id ≠ [] := hmne
      simpa [List.getLast_map] using List.mem_singleton.mp hsing
    exact id_injOn h (mem_membersOf.mp hc).1
      (mem_membersOf.mp (List.getLast_mem hne)).1 hid

theorem getLast_mem_final_of_all_empty {cards : List Flashcard} {w : String}
    (h : (cards.map Flashcard.id).Nodup)
    (hall : ∀ c ∈ membersOf cards w, isEmptyRecord c = true)
    (hne : membersOf cards w ≠ []) :
    (membersOf cards w).getLast hne ∈ (deDuplicateFlashcards cards).2 := by
  set m := (membersOf cards w).getLast hne with hm
  have hmem : m ∈ membersOf cards w := List.getLast_mem hne
  rcases mem_membersOf.mp hmem with ⟨hmc, hmw⟩
  refine (mem_final_iff h).mpr ⟨hmc, not_mem_allDeletedIds h hmc ?_⟩
  rw [hmw, recordsToDelete_all_empty hall]
  rw [hm]
  exact getLast_id_not_mem_dropLast (nodup_membersOf_ids h) hne

/-! ### Sizes of the per-group delete lists -/

theorem recordsToDelete_length_all_empty {g : List Flashcard}
    (hall : ∀ c ∈ g, isEmptyRecord c = true) :
    (recordsToDelete g).length = g.length - 1 := by
  rw [recordsToDelete_all_empty hall, List.length_dropLast, List.length_map]

theorem recordsToDelete_length_lt {g : List Flashcard}
    (hex : ∃ m ∈ g, isEmptyRecord m = false) :
    (recordsToDelete g).length < g.length := by
  have hlt : (g.filter isEmptyRecord).length < g.length :=
    List.length_filter_lt_length_iff_exists.mpr
      (by rcases hex with ⟨m, hm, hme⟩; exact ⟨m, hm, by simp [hme]⟩)
  unfold recordsToDelete
  have hlen : ¬ ((g.filter isEmptyRecord).map Flashcard.id).length = g.length := by
    rw [List.length_map]; omega
  simp only [hlen, if_neg, ite_false]
  rw [List.length_map]
  exact hlt

theorem recordsToDelete_length_le (g : List Flashcard) :
    (recordsToDelete g).length ≤ g.length - 1 := by
  by_cases hall : ∀ c ∈ g, isEmptyRecord c = true
  · exact (recordsToDelete_length_all_empty hall).le
  · push_neg at hall
    rcases hall with ⟨m, hm, hme⟩
    have := recordsToDelete_length_lt ⟨m, hm, Bool.not_eq_true _ ▸ hme⟩
    omega

/-! ### The claims -/

/-- C1 (Preference): for every store state and every duplicate group that
contains at least one meaningful member, every member deleted by
`deDuplicateFlashcards` is empty, and no meaningful member is ever
deleted by the pass. -/
theorem claim_C1 (cards : List Flashcard) (h : (cards.map Flashcard.id).Nodup)
    (w : String) (hw : w ∈ duplicateWords cards)
    (hmean : ∃ m ∈ membersOf cards w, isEmptyRecord m = false) :
    (∀ c ∈ membersOf cards w,
        c ∉ (deDuplicateFlashcards cards).2 → isEmptyRecord c = true) ∧
    (∀ c ∈ membersOf cards w,
        isEmptyRecord c = false → c ∈ (deDuplicateFlashcards cards).2) := by
  constructor
  · intro c hc hnf
    exact deleted_isEmptyRecord h (mem_membersOf.mp hc).1 hnf
  · intro c hc hm
    exact meaningful_mem_final h (mem_membersOf.mp hc).1 hm

/-- Witness for C1: spec scenario A, the `"Hola"` group with one meaningful
and one empty member. -/
theorem claim_C1_witness :
    (scenarioA.map Flashcard.id).Nodup ∧
    "Hola" ∈ duplicateWords scenarioA ∧
    (∃ m ∈ membersOf scenarioA "Hola", isEmptyRecord m = false) ∧
    ((∀ c ∈ membersOf scenarioA "Hola",
        c ∉ (deDuplicateFlashcards scenarioA).2 → isEmptyRecord c = true) ∧
     (∀ c ∈ membersOf scenarioA "Hola",
        isEmptyRecord c = false → c ∈ (deDuplicateFlashcards scenarioA).2)) :=
  ⟨by decide, by decide, by decide,
   claim_C1 scenarioA (by decide) "Hola" (by decide) (by decide)⟩

/-- C2 (Conservation): every duplicate group has at most `size - 1` of its
members deleted, and at least one record with the group's `spanishWord`
survives the pass. -/
theorem claim_C2 (cards : List Flashcard) (h : (cards.map Flashcard.id).Nodup)
    (w : String) (hw : w ∈ duplicateWords cards) :
    (recordsToDelete (membersOf cards w)).length ≤ (membersOf cards w).length - 1 ∧
    ∃ c ∈ (deDuplicateFlashcards cards).2, c.spanishWord = w := by
  have hlen := (mem_duplicateWords.mp hw).2
  have hne : membersOf cards w ≠ [] := by
    intro hnil; rw [hnil] at hlen; simp at hlen
  refine ⟨recordsToDelete_length_le _, ?_⟩
  by_cases hall : ∀ c ∈ membersOf cards w, isEmptyRecord c = true
  · exact ⟨(membersOf cards w).getLast hne,
      getLast_mem_final_of_all_empty h hall hne,
      (mem_membersOf.mp (List.getLast_mem hne)).2⟩
  · push_neg at hall
    rcases hall with ⟨m, hm, hme⟩
    exact ⟨m, meaningful_mem_final h (mem_membersOf.mp hm).1
      (Bool.not_eq_true _ ▸ hme), (mem_membersOf.mp hm).2⟩

/-- Witness for C2: spec scenario B, the all-empty `"Adios"` group. -/
theorem claim_C2_witness :
    (scenarioB.map Flashcard.id).Nodup ∧
    "Adios" ∈ duplicateWords scenarioB ∧
    ((recordsToDelete (membersOf scenarioB "Adios")).length
        ≤ (membersOf scenarioB "Adios").length - 1 ∧
     ∃ c ∈ (deDuplicateFlashcards scenarioB).2, c.spanishWord = "Adios") :=
  ⟨by decide, by decide, claim_C2 scenarioB (by decide) "Adios" (by decide)⟩

/-- C5 (All-empty tie-break): in a duplicate group whose members are all
empty, exactly `size - 1` members are marked for deletion and the survivor
is the group's last member in store order; on spec scenario B (three
all-empty `"Adios"` records) the summary is
`{duplicateGroupsFound := 1, recordsDeleted := 2, remainingRecords := 1}`. -/
theorem claim_C5 (cards : List Flashcard) (h : (cards.map Flashcard.id).Nodup)
    (w : String) (hw : w ∈ duplicateWords cards)
    (hall : ∀ c ∈ membersOf cards w, isEmptyRecord c = true)
    (hne : membersOf cards w ≠ []) :
    (recordsToDelete (membersOf cards w)).length = (membersOf cards w).length - 1 ∧
    (membersOf cards w).getLast hne ∈ (deDuplicateFlashcards cards).2 ∧
    (deDuplicateFlashcards scenarioB).1 =
      { deletedCount := 2, duplicateGroups := 1, remainingCount := 1 } :=
  ⟨recordsToDelete_length_all_empty hall,
   getLast_mem_final_of_all_empty h hall hne, by decide⟩

/-- Witness for C5: scenario B itself; the survivor is the third record. -/
theorem claim_C5_witness :
    (scenarioB.map Flashcard.id).Nodup ∧
    "Adios" ∈ duplicateWords scenarioB ∧
    (∀ c ∈ membersOf scenarioB "Adios", isEmptyRecord c = true) ∧
    ((recordsToDelete (membersOf scenarioB "Adios")).length
        = (membersOf scenarioB "Adios").length - 1 ∧
     (membersOf scenarioB "Adios").getLast (by decide)
        ∈ (deDuplicateFlashcards scenarioB).2 ∧
     (deDuplicateFlashcards scenarioB).1 =
      { deletedCount := 2, duplicateGroups := 1, remainingCount := 1 }) :=
  ⟨by decide, by decide, by decide,
   claim_C5 scenarioB (by decide) "Adios" (by decide) (by decide) (by decide)⟩

/-! ### Counting the deletions -/

theorem nodup_recordsToDelete {cards : List Flashcard} {w : String}
    (h : (cards.map Flashcard.id).Nodup) :
    (recordsToDelete (membersOf cards w)).Nodup :=
  ((recordsToDelete_sublist (membersOf cards w)).trans
    (membersOf_map_id_sublist cards w)).nodup h

theorem nodup_duplicateWords (cards : List Flashcard) :
    (duplicateWords cards).Nodup :=
  (List.nodup_dedup _).filter _

theorem nodup_allDeletedIds {cards : List Flashcard}
    (h : (cards.map Flashcard.id).Nodup) : (allDeletedIds cards).Nodup := by
  refine List.nodup_flatMap.mpr ⟨fun w _ => nodup_recordsToDelete h, ?_⟩
  refine (nodup_duplicateWords cards).imp ?_
  intro w w' hne x hx hx'
  rcases mem_recordsToDelete hx with ⟨c, hcg, hcx, _⟩
  rcases mem_recordsToDelete hx' with ⟨c', hcg', hcx', _⟩
  have hceq : c = c' :=
    id_injOn h (mem_membersOf.mp hcg).1 (mem_membersOf.mp hcg').1
      (by rw [hcx, hcx'])
  subst hceq
  exact hne (((mem_membersOf.mp hcg).2).symm.trans (mem_membersOf.mp hcg').2)

theorem allDeletedIds_subset {cards : List Flashcard} {x : Nat}
    (hx : x ∈ allDeletedIds cards) : x ∈ cards.map Flashcard.id := by
  rcases exists_of_mem_allDeletedIds hx with ⟨c, hc, hcx, _⟩
  exact List.mem_map.mpr ⟨c, hc, hcx⟩

/-- Each id of a duplicate-free list of ids deletes exactly one record. -/
theorem length_filter_not_mem_ids {cards : List Flashcard} {ids : List Nat}
    (h : (cards.map Flashcard.id).Nodup) (hids : ids.Nodup)
    (hsub : ∀ x ∈ ids, x ∈ cards.map Flashcard.id) :
    (cards.filter (fun c => decide (c.id ∉ ids))).length
      = cards.length - ids.length := by
  have hsplit := List.length_eq_length_filter_add
    (l := cards) (fun c => decide (c.id ∉ ids))
  have hnotnot : cards.filter (fun c => !(decide (c.id ∉ ids)))
      = cards.filter (fun c => decide (c.id ∈ ids)) := by
    refine List.filter_congr (fun c _ => ?_)
    by_cases hc : c.id ∈ ids <;> simp [hc]
  have hkey : (cards.filter (fun c => decide (c.id ∈ ids))).length = ids.length := by
    set L := cards.filter (fun c => decide (c.id ∈ ids)) with hL
    have hLnodup : (L.map Flashcard.id).Nodup :=
      (List.Sublist.map _ (List.filter_sublist _)).nodup h
    have hmemiff : ∀ x, x ∈ L.map Flashcard.id ↔ x ∈ ids := by
      intro x
      constructor
      · intro hx
        rcases List.mem_map.mp hx with ⟨c, hc, hcx⟩
        have := (List.mem_filter.mp hc).2
        rw [← hcx]
        simpa using this
      · intro hx
        rcases List.mem_map.mp (hsub x hx) with ⟨c, hc, hcx⟩
        subst hcx
        exact List.mem_map.mpr
          ⟨c, List.mem_filter.mpr ⟨hc, by simpa using hx⟩, rfl⟩
    have hfs : (L.map Flashcard.id).toFinset = ids.toFinset := by
      ext x; simp only [List.mem_toFinset, hmemiff]
    have h1 := List.toFinset_card_of_nodup hLnodup
    have h2 := List.toFinset_card_of_nodup hids
    have h3 : (L.map Flashcard.id).length = ids.length := by
      rw [← h1, hfs, h2]
    simpa [List.length_map] using h3
  rw [hnotnot, hkey] at hsplit
  omega

/-- C3 (Count consistency and frame): the summary satisfies
`remainingRecords = countAll_before - recordsDeleted`, and every record whose
`spanishWord` is not shared by another record is untouched by the pass. -/
theorem claim_C3 (cards : List Flashcard)
    (h : (cards.map Flashcard.id).Nodup) :
    (deDuplicateFlashcards cards).1.remainingCount
      = cards.length - (deDuplicateFlashcards cards).1.deletedCount ∧
    ∀ c ∈ cards, (membersOf cards c.spanishWord).length = 1 →
      c ∈ (deDuplicateFlashcards cards).2 := by
  constructor
  · show ((allDeletedIds cards).foldl deleteById cards).length
      = cards.length - (allDeletedIds cards).length
    rw [foldl_deleteById_eq_filter _ h]
    exact length_filter_not_mem_ids h (nodup_allDeletedIds h)
      (fun x hx => allDeletedIds_subset hx)
  · intro c hc hsing
    refine (mem_final_iff h).mpr ⟨hc, fun hmem => ?_⟩
    rcases exists_of_mem_allDeletedIds hmem with ⟨c', hc', hid, _, _, hdup⟩
    have hceq : c' = c := id_injOn h hc' hc hid
    subst hceq
    rw [hsing] at hdup
    exact absurd hdup (by norm_num)

/-- Witness for C3: spec scenario A (one duplicate group, one deletion). -/
theorem claim_C3_witness :
    (scenarioA.map Flashcard.id).Nodup ∧
    ((deDuplicateFlashcards scenarioA).1.remainingCount
        = scenarioA.length - (deDuplicateFlashcards scenarioA).1.deletedCount ∧
     ∀ c ∈ scenarioA, (membersOf scenarioA c.spanishWord).length = 1 →
        c ∈ (deDuplicateFlashcards scenarioA).2) :=
  ⟨by decide, claim_C3 scenarioA (by decide)⟩

/-! ### The state after a pass -/

theorem mem_recordsToDelete_of_empty {g : List Flashcard}
    (hex : ∃ m ∈ g, isEmptyRecord m = false) {c : Flashcard}
    (hc : c ∈ g) (he : isEmptyRecord c = true) :
    c.id ∈ recordsToDelete g := by
  unfold recordsToDelete
  have hlt : (g.filter isEmptyRecord).length < g.length :=
    List.length_filter_lt_length_iff_exists.mpr
      (by rcases hex with ⟨m, hm, hme⟩; exact ⟨m, hm, by simp [hme]⟩)
  have hne : ¬ ((g.filter isEmptyRecord).map Flashcard.id).length = g.length := by
    rw [List.length_map]; omega
  simp only [hne, if_neg, ite_false]
  exact List.mem_map.mpr ⟨c, List.mem_filter.mpr ⟨hc, he⟩, rfl⟩

theorem eq_singleton_of_mem_unique {α : Type _} {l : List α} (hnd : l.Nodup)
    {a : α} (ha : a ∈ l) (huniq : ∀ b ∈ l, b = a) : l = [a] := by
  cases l with
  | nil => cases ha
  | cons x xs =>
    have hx : x = a := huniq x (by simp)
    subst hx
    have hxs : xs = [] := by
      cases xs with
      | nil => rfl
      | cons y ys =>
        have hy : y = x := huniq y (by simp)
        rcases List.nodup_cons.mp hnd with ⟨hnx, _⟩
        exact absurd (hy ▸ List.mem_cons_self y ys) hnx
    rw [hxs]

theorem nodup_final_ids {cards : List Flashcard}
    (h : (cards.map Flashcard.id).Nodup) :
    ((deDuplicateFlashcards cards).2.map Flashcard.id).Nodup := by
  rw [final_eq_filter h]
  exact (List.Sublist.map _ (List.filter_sublist _)).nodup h

/-- An empty record that survives a pass is alone under its `spanishWord` in
the final store state. -/
theorem empty_final_singleton {cards : List Flashcard}
    (h : (cards.map Flashcard.id).Nodup) {c : Flashcard}
    (hc : c ∈ (deDuplicateFlashcards cards).2) (he : isEmptyRecord c = true) :
    membersOf (deDuplicateFlashcards cards).2 c.spanishWord = [c] := by
  rcases (mem_final_iff h).mp hc with ⟨hcc, hcnd⟩
  have hcm : c ∈ membersOf cards c.spanishWord := mem_membersOf.mpr ⟨hcc, rfl⟩
  have hfn : (deDuplicateFlashcards cards).2.Nodup :=
    List.Nodup.of_map _ (nodup_final_ids h)
  refine eq_singleton_of_mem_unique (hfn.filter _)
    (mem_membersOf.mpr ⟨hc, rfl⟩) ?_
  intro d hd
  rcases mem_membersOf.mp hd with ⟨hdf, hdw⟩
  rcases (mem_final_iff h).mp hdf with ⟨hdc, hdnd⟩
  have hdm : d ∈ membersOf cards c.spanishWord := mem_membersOf.mpr ⟨hdc, hdw⟩
  by_cases hdup : 1 < (membersOf cards c.spanishWord).length
  · have hw : c.spanishWord ∈ duplicateWords cards :=
      mem_duplicateWords.mpr ⟨List.mem_map.mpr ⟨c, hcc, rfl⟩, hdup⟩
    by_cases hall : ∀ x ∈ membersOf cards c.spanishWord, isEmptyRecord x = true
    · have hne : membersOf cards c.spanishWord ≠ [] := by
        intro hnil; rw [hnil] at hcm; exact (List.not_mem_nil c) hcm
      have hcng : c.id ∉ recordsToDelete (membersOf cards c.spanishWord) :=
        fun hmem => hcnd (recordsToDelete_subset_allDeletedIds hw hmem)
      have hdng : d.id ∉ recordsToDelete (membersOf cards c.spanishWord) :=
        fun hmem => hdnd (recordsToDelete_subset_allDeletedIds hw hmem)
      have hceq := eq_getLast_of_not_marked h hall hne hcm hcng
      have hdeq := eq_getLast_of_not_marked h hall hne hdm hdng
      rw [hdeq, ← hceq]
    · push_neg at hall
      rcases hall with ⟨m, hm, hme⟩
      have hmark : c.id ∈ recordsToDelete (membersOf cards c.spanishWord) :=
        mem_recordsToDelete_of_empty ⟨m, hm, Bool.not_eq_true _ ▸ hme⟩ hcm he
      exact absurd (recordsToDelete_subset_allDeletedIds hw hmark) hcnd
  · have hlen : (membersOf cards c.spanishWord).length = 1 := by
      have h1 : 0 < (membersOf cards c.spanishWord).length :=
        List.length_pos.mpr (fun hnil => by
          rw [hnil] at hcm; exact (List.not_mem_nil c) hcm)
      omega
    rcases List.length_eq_one.mp hlen with ⟨a, ha⟩
    rw [ha] at hcm hdm
    rw [List.mem_singleton.mp hdm, ← List.mem_singleton.mp hcm]

/-- C4 (amended, Idempotence): a second run with no intervening writes
deletes nothing.  (The claim's `duplicateGroupsFound = 0` on the second run
fails: a group of two or more meaningful members survives intact, see the
counterexample.) -/
theorem claim_C4 (cards : List Flashcard)
    (h : (cards.map Flashcard.id).Nodup) :
    (deDuplicateFlashcards (deDuplicateFlashcards cards).2).1.deletedCount = 0 := by
  have hnil : allDeletedIds (deDuplicateFlashcards cards).2 = [] := by
    rw [List.eq_nil_iff_forall_not_mem]
    intro x hx
    rcases exists_of_mem_allDeletedIds hx with ⟨c, hcf, _, he, _, hdup⟩
    rw [empty_final_singleton h hcf he] at hdup
    exact absurd hdup (by norm_num)
  show (allDeletedIds (deDuplicateFlashcards cards).2).length = 0
  rw [hnil]
  rfl

/-- Counterexample to C4 as stated: two meaningful records sharing one
`spanishWord` survive the first pass, so the second run still reports one
duplicate group (`duplicateGroupsFound = 1`, not `0`). -/
theorem claim_C4_counterexample :
    ¬ ((deDuplicateFlashcards (deDuplicateFlashcards twoMeaningful).2).1.duplicateGroups = 0 ∧
       (deDuplicateFlashcards (deDuplicateFlashcards twoMeaningful).2).1.deletedCount = 0) := by
  decide

/-- Witness for C4 (amended form). -/
theorem claim_C4_witness :
    (twoMeaningful.map Flashcard.id).Nodup ∧
    (deDuplicateFlashcards (deDuplicateFlashcards twoMeaningful).2).1.deletedCount = 0 :=
  ⟨by decide, claim_C4 twoMeaningful (by decide)⟩

/-! ### The duplicate-detection key -/

theorem count_spanishWord_eq {cards : List Flashcard} (w : String) :
    (cards.map Flashcard.spanishWord).count w = (membersOf cards w).length := by
  rw [List.count_eq_countP, List.countP_map, membersOf,
    ← List.countP_eq_length_filter]
  rfl

/-- C6 (Duplicate detection key): `duplicateGroupsFound` equals the number of
distinct `spanishWord` values shared by more than one record, compared
case-sensitively with exact string match; on spec scenario C (words
`"hola"` and `"Hola"` differing only in case), the summary is all zeros
except `remainingRecords = 2`, and no record is deleted. -/
theorem claim_C6 (cards : List Flashcard) :
    (deDuplicateFlashcards cards).1.duplicateGroups
      = distinctDuplicatedWordCount cards ∧
    (deDuplicateFlashcards scenarioC).1 =
      { deletedCount := 0, duplicateGroups := 0, remainingCount := 2 } ∧
    (deDuplicateFlashcards scenarioC).2 = scenarioC := by
  refine ⟨?_, by decide, by decide⟩
  show (duplicateWords cards).length = distinctDuplicatedWordCount cards
  unfold duplicateWords distinctDuplicatedWordCount
  have hnodup :
      (((cards.map Flashcard.spanishWord).dedup).filter
        (fun w => decide (1 < (membersOf cards w).length))).Nodup :=
    (List.nodup_dedup _).filter _
  rw [← List.toFinset_card_of_nodup hnodup, List.toFinset_filter]
  have hdt : (cards.map Flashcard.spanishWord).dedup.toFinset
      = (cards.map Flashcard.spanishWord).toFinset := by
    ext x; simp [List.mem_toFinset, List.mem_dedup]
  rw [hdt]
  congr 1
  refine Finset.filter_congr ?_
  intro w _
  rw [count_spanishWord_eq w]
  simp

/-! ### Failure semantics -/

theorem runDeletesE_ok (dfail : Nat → Bool) {cards : List Flashcard}
    {ids : List Nat} (hok : ∀ y ∈ ids, dfail y = false) :
    runDeletesE dfail cards ids = .ok (ids.foldl deleteById cards) := by
  induction ids generalizing cards with
  | nil => rfl
  | cons x ids ih =>
    have hx : dfail x = false := hok x (by simp)
    simp only [runDeletesE, hx, Bool.false_eq_true, if_false]
    exact ih (fun z hz => hok z (by simp [hz]))

theorem runDeletesE_error (dfail : Nat → Bool) {cards : List Flashcard}
    (ids₁ : List Nat) (x : Nat) (ids₂ : List Nat)
    (hok : ∀ y ∈ ids₁, dfail y = false) (hx : dfail x = true) :
    runDeletesE dfail cards (ids₁ ++ x :: ids₂)
      = .error (ids₁.foldl deleteById cards) := by
  induction ids₁ generalizing cards with
  | nil => simp [runDeletesE, hx]
  | cons y ids₁ ih =>
    have hy : dfail y = false := hok y (by simp)
    simp only [List.cons_append, runDeletesE, hy, Bool.false_eq_true, if_false]
    exact ih (fun z hz => hok z (by simp [hz]))

/-- C7 (Failure semantics): a failing grouping query propagates with the
store unchanged; a per-record delete failure mid-pass propagates with the
earlier deletes of the same run still applied and no summary returned; and
an empty collection is not an error — it yields the all-zero summary. -/
theorem claim_C7 (cards : List Flashcard) (dfail : Nat → Bool) :
    (deDuplicateFlashcardsE true dfail cards = .error cards) ∧
    (∀ ids₁ x ids₂, allDeletedIds cards = ids₁ ++ x :: ids₂ →
        (∀ y ∈ ids₁, dfail y = false) → dfail x = true →
        deDuplicateFlashcardsE false dfail cards
          = .error (ids₁.foldl deleteById cards)) ∧
    ((∀ y ∈ allDeletedIds cards, dfail y = false) →
        deDuplicateFlashcardsE false dfail cards
          = .ok (deDuplicateFlashcards cards)) ∧
    (deDuplicateFlashcardsE false dfail [] =
      .ok ({ deletedCount := 0, duplicateGroups := 0, remainingCount := 0 }, [])) := by
  refine ⟨rfl, ?_, ?_, ?_⟩
  · intro ids₁ x ids₂ hsplit hok hx
    simp only [deDuplicateFlashcardsE, Bool.false_eq_true, if_false, hsplit,
      runDeletesE_error dfail ids₁ x ids₂ hok hx]
  · intro hok
    simp only [deDuplicateFlashcardsE, Bool.false_eq_true, if_false,
      runDeletesE_ok dfail hok, deDuplicateFlashcards]
  · rfl

/-- Witness for C7: scenario B's pass deletes ids 1 then 2; a failure
injected on the delete of id 2 leaves the store with id 1 already deleted
and surfaces the error. -/
theorem claim_C7_witness :
    (allDeletedIds scenarioB = [1] ++ 2 :: []) ∧
    (∀ y ∈ [1], (fun y : Nat => y == 2) y = false) ∧
    ((fun y : Nat => y == 2) 2 = true) ∧
    deDuplicateFlashcardsE false (fun y : Nat => y == 2) scenarioB
      = .error ([1].foldl deleteById scenarioB) :=
  ⟨by decide, by decide, by decide,
   (claim_C7 scenarioB (fun y : Nat => y == 2)).2.1 [1] 2 []
     (by decide) (by decide) (by decide)⟩

/-! ### The stats-update formula -/

theorem ratio_mem_Icc {n d : ℚ} (hn : 0 ≤ n) (hd : 0 < d) (hnd : n ≤ d) :
    0 ≤ n / d ∧ n / d ≤ 1 :=
  ⟨div_nonneg hn hd.le, (div_le_one hd).mpr hnd⟩

theorem toFixed2_mem_Icc {x : ℚ} (h0 : 0 ≤ x) (h1 : x ≤ 1) :
    0 ≤ toFixed2 x ∧ toFixed2 x ≤ 1 := by
  unfold toFixed2
  have hlow : (0 : ℤ) ≤ round (100 * x) := by
    rw [round_eq]
    calc (0 : ℤ) = ⌊(1 : ℚ)/2⌋ := by norm_num
      _ ≤ ⌊100 * x + 1/2⌋ := Int.floor_le_floor (by linarith)
  have hhigh : round (100 * x) ≤ 100 := by
    rw [round_eq]
    calc ⌊100 * x + 1/2⌋ ≤ ⌊(100 : ℚ) + 1/2⌋ := Int.floor_le_floor (by linarith)
      _ = 100 := by norm_num
  constructor
  · exact div_nonneg (by exact_mod_cast hlow) (by norm_num)
  · rw [div_le_one (by norm_num)]
    exact_mod_cast hhigh

/-- C8 (Stats-update numeric invariants): for a flashcard with
`percentageCorrect ∈ [0,1]`, `updateStats` increments `timesSeen` by exactly
one and keeps `percentageCorrect` in `[0,1]`. -/
theorem claim_C8 (c : Flashcard) (b : Bool)
    (h0 : 0 ≤ c.percentageCorrect) (h1 : c.percentageCorrect ≤ 1) :
    (updateStats c b).timesSeen = c.timesSeen + 1 ∧
    0 ≤ (updateStats c b).percentageCorrect ∧
    (updateStats c b).percentageCorrect ≤ 1 := by
  have ht : (0 : ℚ) ≤ (c.timesSeen : ℚ) := Nat.cast_nonneg _
  have hcast : ((c.timesSeen + 1 : ℕ) : ℚ) = (c.timesSeen : ℚ) + 1 := by
    push_cast; ring
  have hd : (0 : ℚ) < ((c.timesSeen + 1 : ℕ) : ℚ) := by
    rw [hcast]; linarith
  cases b with
  | false =>
    have hr := ratio_mem_Icc (n := c.percentageCorrect * c.timesSeen)
      (d := ((c.timesSeen + 1 : ℕ) : ℚ)) (by nlinarith) hd (by rw [hcast]; nlinarith)
    have hb := toFixed2_mem_Icc hr.1 hr.2
    exact ⟨rfl, by simpa [updateStats] using hb.1, by simpa [updateStats] using hb.2⟩
  | true =>
    have hr := ratio_mem_Icc (n := c.percentageCorrect * c.timesSeen + 1)
      (d := ((c.timesSeen + 1 : ℕ) : ℚ)) (by nlinarith) hd (by rw [hcast]; nlinarith)
    have hb := toFixed2_mem_Icc hr.1 hr.2
    exact ⟨rfl, by simpa [updateStats] using hb.1, by simpa [updateStats] using hb.2⟩

/-- Witness for C8: one correct answer on a card with
`percentageCorrect = 1/2`, `timesSeen = 5`. -/
theorem claim_C8_witness :
    (0 : ℚ) ≤ (⟨7, "sí", "yes", "General", 5, mkRat 1 2, false⟩ : Flashcard).percentageCorrect ∧
    (⟨7, "sí", "yes", "General", 5, mkRat 1 2, false⟩ : Flashcard).percentageCorrect ≤ 1 ∧
    ((updateStats ⟨7, "sí", "yes", "General", 5, mkRat 1 2, false⟩ true).timesSeen
        = (⟨7, "sí", "yes", "General", 5, mkRat 1 2, false⟩ : Flashcard).timesSeen + 1 ∧
     0 ≤ (updateStats ⟨7, "sí", "yes", "General", 5, mkRat 1 2, false⟩ true).percentageCorrect ∧
     (updateStats ⟨7, "sí", "yes", "General", 5, mkRat 1 2, false⟩ true).percentageCorrect ≤ 1) :=
  ⟨by norm_num [mkRat], by norm_num [mkRat],
   claim_C8 ⟨7, "sí", "yes", "General", 5, mkRat 1 2, false⟩ true
     (by norm_num [mkRat]) (by norm_num [mkRat])⟩

/-- C10 (implicit — stats rounding): `updateStats` stores the two-decimal
rounding of the running ratio, not the exact ratio; after the answer
sequence correct, wrong, wrong on a fresh card the stored value is `0.33`,
which differs from the exact ratio `1/3` of correct answers to
`timesSeen`. -/
theorem claim_C10 :
    (∀ (c : Flashcard) (b : Bool),
        (updateStats c b).percentageCorrect
          = toFixed2 ((c.percentageCorrect * c.timesSeen + (if b then 1 else 0))
              / ((c.timesSeen : ℚ) + 1))) ∧
    (updateStats (updateStats (updateStats c10Card true) false) false).timesSeen = 3 ∧
    (updateStats (updateStats (updateStats c10Card true) false) false).percentageCorrect
      = 33/100 ∧
    (33 : ℚ)/100 ≠ 1/3 := by
  refine ⟨?_, rfl, ?_, by norm_num⟩
  · intro c b
    have hcast : ((c.timesSeen + 1 : ℕ) : ℚ) = (c.timesSeen : ℚ) + 1 := by
      push_cast; ring
    cases b <;> simp [updateStats, hcast]
  · norm_num [updateStats, toFixed2, c10Card, createFlashcard, round_eq]

/-! ### Category defaults on the creation paths -/

/-- Counterexample to C9 as stated: a flashcard created by the CSV-import
path has category `"unassigned"`, not `"General"`. -/
theorem claim_C9_counterexample :
    (createFlashcardFromCSVRow 1 "hola" "hello").category = "unassigned" ∧
    "unassigned" ≠ "General" :=
  ⟨rfl, by decide⟩

/-- C9 (amended): a flashcard created through the add path without an
explicit category defaults to `"General"`, while a flashcard created through
the CSV-import path always has category `"unassigned"`. -/
theorem claim_C9 (rid : Nat) (s e : String) :
    (createFlashcard rid s e none).category = "General" ∧
    (createFlashcardFromCSVRow rid s e).category = "unassigned" :=
  ⟨rfl, rfl⟩

end FlashcardApi
